import Mathlib

/-!
Shallow embedding of the simag knowledge-base core
(`src/simag/core/kblogic.py` and `src/simag/core/parser.py`).

Conventions of the embedding:
* Python `float` truth values are modelled as `ℚ` (only `=`, `<`, `>`
  comparisons occur in the sources).
* Python `dict` objects are modelled as insertion-ordered association
  lists with the update-in-place semantics of `d[k] = v` (`dictSet`).
* Fallible Python code (code that can raise) returns `Except PyError α`;
  each `PyError` constructor names the Python exception class raised.
* Wall-clock time (`datetime.now()`) is an explicit `now : Nat` argument;
  the `dates` timestamp lists of atoms are `Option (List Nat)`
  (`none` models the absence of the optional `dates` attribute).
-/

deriving instance DecidableEq for Except

namespace Simag

/-- The Python exceptions that the modelled code can raise. -/
inductive PyError where
  | assertionError (msg : String)
  | attributeError (msg : String)
  | keyError
  | typeError
  | nameError
  deriving DecidableEq, Repr

/-- Python `'c' in s` membership test of a character in a string. -/
def containsChar (s : String) (c : Char) : Bool :=
  s.data.contains c

/-- Python `s[0] == '$'` test (subject names are never empty in parsed input). -/
def firstCharIsDollar (s : String) : Bool :=
  s.data.head? = some '$'

/-- Lookup in an insertion-ordered association list (Python `d[k]` / `k in d`). -/
def dictGet (m : List (String × α)) (k : String) : Option α :=
  match m with
  | [] => none
  | (k', v) :: rest => if k' = k then some v else dictGet rest k

/-- Python `d[k] = v`: replace the binding in place, or append a new one. -/
def dictSet (m : List (String × α)) (k : String) (v : α) : List (String × α) :=
  match m with
  | [] => [(k, v)]
  | (k', v') :: rest => if k' = k then (k, v) :: rest else (k', v') :: dictSet rest k v

/-! ### Atoms (`parser.py`) -/

/-- A grounded membership atom (class `GroundedTerm` in `make_fact`). -/
structure GroundedTerm where
  parent : String
  term : String
  value : ℚ
  op : Char
  dates : Option (List Nat) := none
  deriving DecidableEq, Repr

/-- A free membership atom (class `FreeTerm` in `make_fact`): same fields,
different `__eq__`. -/
structure FreeTerm where
  parent : String
  term : String
  value : ℚ
  op : Char
  dates : Option (List Nat) := none
  deriving DecidableEq, Repr

/-- One argument of a relation atom: either `(term, value, op)` or a bare term. -/
inductive FuncArg where
  | tup (term : String) (value : ℚ) (op : Char)
  | bare (term : String)
  deriving DecidableEq, Repr

/-- The term carried by an argument (`arg[0]` for tuples, `arg` for bare terms). -/
def FuncArg.termOf : FuncArg → String
  | .tup t _ _ => t
  | .bare t => t

/-- A relation atom (class `RelationFunc` in `make_function`).
`argsID` models `args_ID = hash(tuple(arg terms))`: the term tuple itself is
kept instead of its hash (hash collisions are ignored by the model).
The source also sets `self.value = mk_args[0][1]`, which is only meaningful
when the first argument is a value-carrying tuple; the field is omitted here
because no modelled operation reads it. -/
structure RelationFunc where
  func : String
  args : List FuncArg
  argsID : List String
  arity : Nat
  dates : Option (List Nat) := none
  deriving DecidableEq, Repr

/-- Source `func.get_args()`: the list of argument terms. -/
def get_args (f : RelationFunc) : List String :=
  f.args.map FuncArg.termOf

/-! ### Time-validity comparison (`MetaForAtoms.__eval_time_truth`) -/

/-- The per-atom flag computed inside `__eval_time_truth`:
`(len(dates) % 2 or len(dates) == 1) and dates[-1] < now` when the atom has a
`dates` attribute, `True` otherwise. -/
def currentlyTrue (dates : Option (List Nat)) (now : Nat) : Bool :=
  match dates with
  | none => true
  | some ds => (decide (ds.length % 2 ≠ 0) || decide (ds.length = 1))
      && decide (ds.getLastD 0 < now)

/-- Source `self._eval_time_truth(other)`: after computing the two flags, the source
returns `True` when `(isTrueOther and isTrueSelf)` is `True` **or** is `False` —
which holds for every pair of booleans. -/
def evalTimeTruth (dSelf dOther : Option (List Nat)) (now : Nat) : Bool :=
  let isTrueSelf := currentlyTrue dSelf now
  let isTrueOther := currentlyTrue dOther now
  ((isTrueOther && isTrueSelf) == true) || ((isTrueOther && isTrueSelf) == false)

/-- Source `GroundedTerm.__eq__(self, other)`: time-truth short-circuit, then
comparison of `parent` and `term` only (`op` and `value` are not read). -/
def groundedEq (self other : GroundedTerm) (now : Nat) : Bool :=
  if evalTimeTruth self.dates other.dates now = false then false
  else decide (other.parent = self.parent) && decide (other.term = self.term)

/-- Source `FreeTerm.__eq__(self, other)`: time-truth short-circuit, then comparison
of the stored value against the queried value under `self.op`. -/
def freeEq (self : FreeTerm) (other : GroundedTerm) (now : Nat) : Bool :=
  if evalTimeTruth self.dates other.dates now = false then false
  else if self.op = '=' ∧ other.value = self.value then true
  else if self.op = '>' ∧ other.value > self.value then true
  else if self.op = '<' ∧ other.value < self.value then true
  else false

/-! ### Atom construction (`LogPredicate.__init__`, `make_fact`,
`LogFunction.__init__`, `make_function`) -/

/-- A parsed membership assertion as handed over by the grammar:
`(klass, term, (op, uval))`. -/
structure RawMemb where
  klass : String
  term : String
  op : Char
  uval : ℚ
  deriving DecidableEq, Repr

/-- A parsed relation argument: `(term, (op, uval)?)`. -/
structure RawFuncArg where
  term : String
  uval : Option (Char × ℚ) := none
  deriving DecidableEq, Repr

/-- A parsed relation assertion: `(func, args)`. -/
structure RawFunc where
  func : String
  args : List RawFuncArg
  deriving DecidableEq, Repr

/-- Source `LogPredicate.__init__`: extracts `(parent, term, val, op)` from the parsed
predicate and raises `AssertionError` when the value lies outside `[0, 1]`.
(The `dates` handling is commented out in the source, so `dates` is `None`.) -/
def mkLogPredicateFields (raw : RawMemb) :
    Except PyError (String × String × ℚ × Char) :=
  if raw.uval > 1 ∨ raw.uval < 0 then
    .error (.assertionError "Illegal value")
  else
    .ok (raw.klass, raw.term, raw.uval, raw.op)

/-- Source `GroundedTerm.__init__` (via `make_fact(pred, 'grounded_term')`): the base
class validates the value, then the op must be `=`, then the value is checked
again. -/
def mkGroundedTerm (raw : RawMemb) : Except PyError GroundedTerm :=
  match mkLogPredicateFields raw with
  | .error e => .error e
  | .ok (parent, term, val, op) =>
    if op ≠ '=' then
      .error (.assertionError "must assign truth value")
    else if val > 1 ∨ val < 0 then
      .error (.assertionError "Illegal value")
    else
      .ok ⟨parent, term, val, op, none⟩

/-- Source `FreeTerm.__init__` (via `make_fact(pred, 'free_term')`). -/
def mkFreeTerm (raw : RawMemb) : Except PyError FreeTerm :=
  match mkLogPredicateFields raw with
  | .error e => .error e
  | .ok (parent, term, val, op) => .ok ⟨parent, term, val, op, none⟩

/-- One step of the argument loop of `LogFunction.__init__`: a value-carrying
argument is validated to lie in `[0, 1]` (`AssertionError` otherwise). -/
def mkFuncArg (a : RawFuncArg) : Except PyError FuncArg :=
  match a.uval with
  | some (op, v) =>
      if v > 1 ∨ v < 0 then .error (.assertionError "Illegal value")
      else .ok (.tup a.term v op)
  | none => .ok (.bare a.term)

/-- The `for a in sent.args` loop of `LogFunction.__init__`: arguments are
processed left to right, raising at the first illegal value. -/
def mkFuncArgs : List RawFuncArg → Except PyError (List FuncArg)
  | [] => .ok []
  | a :: rest =>
    match mkFuncArg a with
    | .error e => .error e
    | .ok fa =>
      match mkFuncArgs rest with
      | .error e => .error e
      | .ok fas => .ok (fa :: fas)

/-- Source `RelationFunc.__init__` (via `make_function(sent, 'relation')`):
builds the argument list, the args-id (term tuple) and the arity. -/
def mkRelationFunc (raw : RawFunc) : Except PyError RelationFunc :=
  match mkFuncArgs raw.args with
  | .error e => .error e
  | .ok args => .ok ⟨raw.func, args, raw.args.map RawFuncArg.term, args.length, none⟩

/-- The free-term view of the same parsed text: in ask mode (`tell=False`)
`logic_parser` builds membership atoms with `make_fact(assertion, 'free_term')`,
yielding a `FreeTerm` with the same fields. -/
def freeOfGrounded (a : GroundedTerm) : FreeTerm :=
  ⟨a.parent, a.term, a.value, a.op, a.dates⟩

/-! ### `chk_args_eq` (`RelationFunc.chk_args_eq`) -/

/-- Python `other.args[x][0]`: the term of a tuple argument, or the first
character (as a one-character string) when the argument is a bare string. -/
def pyIndexZero : FuncArg → String
  | .tup t _ _ => t
  | .bare t => String.mk (t.data.take 1)

/-- The positional comparison loop of `chk_args_eq`: for a tuple argument the
source compares `other.args[x][0] != arg[0]`, for a bare argument it compares
the full Python values (a tuple never equals a string). The arity check has
already passed when this runs; a length mismatch despite equal arity fields
cannot be produced by `mkRelationFunc` and is mapped to `false`. -/
def chkArgsEqGo : List FuncArg → List FuncArg → Bool
  | [], _ => true
  | _ :: _, [] => false
  | sa :: ss, oa :: os =>
      (match sa with
       | .tup t _ _ => decide (pyIndexZero oa = t)
       | .bare t =>
         (match oa with
          | .bare ot => decide (ot = t)
          | .tup _ _ _ => false)) && chkArgsEqGo ss os

/-- Source `self.chk_args_eq(other)`: returns `True` when the two relation atoms are
comparable (equal arity, function name, and positional argument terms); the
source otherwise returns a mismatch tuple, modelled as `false`. -/
def chkArgsEq (self other : RelationFunc) : Bool :=
  if other.arity ≠ self.arity then false
  else if other.func ≠ self.func then false
  else chkArgsEqGo self.args other.args

/-! ### The store (`kblogic.py`: `Individual`, `Category`, `Relation`,
`Representation`) -/

/-- A rule sentence as seen by the store and the inference engine: an opaque
identity plus the `created` timestamp that `mk_node`'s sorted bucket reads
(`key=lambda x: x.rule.created`).  Modelled from the spec: no code under
`src/` ever assigns the `created` attribute (neither `make_logic_sent` nor
`save_rule` sets it); spec §9 states creation timestamps are assigned when
`save_rule` succeeds, so the field is carried here as data. -/
structure RuleSentence where
  ident : Nat
  created : Nat
  deriving DecidableEq, Repr

/-- Source `Individual.__init__`: categories list, relations dict, cog index.
The `id`/`cog` attributes play no role in the modelled operations. -/
structure Individual where
  name : String
  categ : List GroundedTerm := []
  relations : List (String × List RelationFunc) := []
  deriving DecidableEq, Repr

def Individual.new (name : String) : Individual :=
  ⟨name, [], []⟩

/-- Source `Category.__init__`: the `parents` and `relations` attributes start out
absent (`hasattr` pattern), hence `Option`.  `isRelation` distinguishes
instances of the `Relation` subclass. -/
structure Category where
  name : String
  cog : List RuleSentence := []
  parents : Option (List GroundedTerm) := none
  relations : Option (List (String × List RelationFunc)) := none
  isRelation : Bool := false
  deriving DecidableEq, Repr

def Category.new (name : String) (isRel : Bool) : Category :=
  ⟨name, [], none, none, isRel⟩

/-- Source `Representation.__init__`: the `individuals` and `classes` maps.
(The `bmsWrapper` and `_locked` attributes are not part of the store model.) -/
structure Representation where
  individuals : List (String × Individual) := []
  classes : List (String × Category) := []
  deriving DecidableEq, Repr

def emptyRepresentation : Representation := ⟨[], []⟩

/-- Source `Individual.add_ctg(fact)`: when no stored atom has the same `parent` the
fact is appended; otherwise the source executes `self.categ[idx].update(fact)`
— but no atom class in `parser.py` defines an `update` method, so that call
raises `AttributeError`. -/
def Individual.add_ctg (ind : Individual) (fact : GroundedTerm) :
    Except PyError Individual :=
  if ind.categ.any (fun f => decide (f.parent = fact.parent)) then
    .error (.attributeError "update")
  else
    .ok ⟨ind.name, ind.categ ++ [fact], ind.relations⟩

/-- Source `Category.add_ctg(fact)`: same logic over the optional `parents` list. -/
def Category.add_ctg (c : Category) (fact : GroundedTerm) :
    Except PyError Category :=
  match c.parents with
  | none => .ok ⟨c.name, c.cog, some [fact], c.relations, c.isRelation⟩
  | some ps =>
    if ps.any (fun f => decide (f.parent = fact.parent)) then
      .error (.attributeError "update")
    else
      .ok ⟨c.name, c.cog, some (ps ++ [fact]), c.relations, c.isRelation⟩

/-- Source `Individual.add_rel(func)`: a missing bucket is created with `[func]`.
With an existing bucket the source loops over the stored atoms: the first one
with `rel.chk_args_eq(func) is True` receives `rel.update(func)` — again a
method no atom class defines, hence `AttributeError` — and when no stored atom
matches, the loop falls through without inserting `func` anywhere: the
incoming atom is dropped. -/
def Individual.add_rel (ind : Individual) (func : RelationFunc) :
    Except PyError Individual :=
  match dictGet ind.relations func.func with
  | none =>
      .ok ⟨ind.name, ind.categ, dictSet ind.relations func.func [func]⟩
  | some rels =>
      if rels.any (fun rel => chkArgsEq rel func) then
        .error (.attributeError "update")
      else
        .ok ind

/-- Source `Category.add_rel(func)` (with the `hasattr(self, 'relations')` pattern).
The `Relation` subclass replaces `add_rel` by a property whose getter takes an
extra argument, so merely accessing it raises; modelled as an error. -/
def Category.add_rel (c : Category) (func : RelationFunc) :
    Except PyError Category :=
  if c.isRelation then .error .typeError else
  match c.relations with
  | none =>
      .ok ⟨c.name, c.cog, c.parents, some [(func.func, [func])], c.isRelation⟩
  | some m =>
    match dictGet m func.func with
    | none =>
        .ok ⟨c.name, c.cog, c.parents, some (dictSet m func.func [func]),
             c.isRelation⟩
    | some rels =>
        if rels.any (fun rel => chkArgsEq rel func) then
          .error (.attributeError "update")
        else
          .ok c

/-! ### `Representation.up_memb` / `Representation.up_rel` -/

/-- The `if/elif/else` dispatch of `up_memb` on `'$' in subject` and presence
in the maps (a `$`-subject missing from `individuals` after the first branch
failed would be an uncaught `KeyError`; the branch guards make it
unreachable). -/
def up_memb_subject (kb : Representation) (pred : GroundedTerm) :
    Except PyError Representation :=
  if dictGet kb.individuals pred.term = none ∧
      containsChar pred.term '$' = true then
    match (Individual.new pred.term).add_ctg pred with
    | .error e => .error e
    | .ok ind => .ok ⟨dictSet kb.individuals pred.term ind, kb.classes⟩
  else if containsChar pred.term '$' = true then
    match dictGet kb.individuals pred.term with
    | some ind =>
      match ind.add_ctg pred with
      | .error e => .error e
      | .ok ind2 => .ok ⟨dictSet kb.individuals pred.term ind2, kb.classes⟩
    | none => .error .keyError
  else
    match dictGet kb.classes pred.term with
    | some cls =>
      match cls.add_ctg pred with
      | .error e => .error e
      | .ok cls2 => .ok ⟨kb.individuals, dictSet kb.classes pred.term cls2⟩
    | none =>
      match (Category.new pred.term false).add_ctg pred with
      | .error e => .error e
      | .ok cls2 => .ok ⟨kb.individuals, dictSet kb.classes pred.term cls2⟩

/-- Source `Representation.up_memb(pred)`: update the subject's owner, then make
sure the parent category exists as a class. -/
def up_memb (kb : Representation) (pred : GroundedTerm) :
    Except PyError Representation :=
  match up_memb_subject kb pred with
  | .error e => .error e
  | .ok kb2 =>
      if dictGet kb2.classes pred.parent = none then
        .ok ⟨kb2.individuals,
             dictSet kb2.classes pred.parent (Category.new pred.parent false)⟩
      else
        .ok kb2

/-- The owner-resolution part of `up_rel`'s per-argument loop: dispatch on
`'$' in subject` and call the owner's `add_rel`. -/
def up_rel_subject (func : RelationFunc) (kb : Representation)
    (subject : String) : Except PyError Representation :=
  if containsChar subject '$' = true then
    match dictGet kb.individuals subject with
    | none =>
      match (Individual.new subject).add_rel func with
      | .error e => .error e
      | .ok ind => .ok ⟨dictSet kb.individuals subject ind, kb.classes⟩
    | some ind =>
      match ind.add_rel func with
      | .error e => .error e
      | .ok ind2 => .ok ⟨dictSet kb.individuals subject ind2, kb.classes⟩
  else
    match dictGet kb.classes subject with
    | none =>
      match (Category.new subject false).add_rel func with
      | .error e => .error e
      | .ok categ => .ok ⟨kb.individuals, dictSet kb.classes subject categ⟩
    | some c =>
      match c.add_rel func with
      | .error e => .error e
      | .ok c2 => .ok ⟨kb.individuals, dictSet kb.classes subject c2⟩

/-- The body of `up_rel`'s per-argument loop: resolve the owner of `subject`,
call its `add_rel`, then create the relation class (a `Relation`) if absent. -/
def up_rel_step (func : RelationFunc) (kb : Representation) (subject : String) :
    Except PyError Representation :=
  match up_rel_subject func kb subject with
  | .error e => .error e
  | .ok kb2 =>
      if dictGet kb2.classes func.func = none then
        .ok ⟨kb2.individuals,
             dictSet kb2.classes func.func (Category.new func.func true)⟩
      else
        .ok kb2

/-- The `for subject in func.get_args()` loop of `up_rel`. -/
def up_rel_go (func : RelationFunc) (kb : Representation) :
    List String → Except PyError Representation
  | [] => .ok kb
  | subject :: rest =>
    match up_rel_step func kb subject with
    | .error e => .error e
    | .ok kb1 => up_rel_go func kb1 rest

/-- Source `Representation.up_rel(func)`. -/
def up_rel (kb : Representation) (func : RelationFunc) :
    Except PyError Representation :=
  up_rel_go func kb (get_args func)

/-! ### `tell` (parse stage followed by store update) -/

/-- Modelled from the spec: the module `simag/core/bms.py` is absent from
`src/` (only the superseded `src/core/bms.py` exists).  Per spec §4.4 the
`BmsWrapper.add` call only records provenance for the atom and never modifies
the `individuals`/`classes` maps, so on this store model it is the identity. -/
def bms_add (kb : Representation) : Representation := kb

/-- Source `tell` for a single membership assertion: `logic_parser` builds the
`GroundedTerm` (raising on an illegal value before any store update), then
`up_memb` runs and the BMS is notified. -/
def tell_memb (kb : Representation) (raw : RawMemb) :
    Except PyError Representation :=
  match mkGroundedTerm raw with
  | .error e => .error e
  | .ok a =>
    match up_memb kb a with
    | .error e => .error e
    | .ok kb2 => .ok (bms_add kb2)

/-- Source `tell` for a single relation assertion. -/
def tell_rel (kb : Representation) (raw : RawFunc) :
    Except PyError Representation :=
  match mkRelationFunc raw with
  | .error e => .error e
  | .ok f =>
    match up_rel kb f with
    | .error e => .error e
    | .ok kb2 => .ok (bms_add kb2)

/-! ### `test_ctg` / `test_pred` (direct store lookup) -/

/-- Source `Individual.test_ctg(pred)` with a grounded query atom: find the first
stored atom with the same `parent` (missing → `None`), then compare with
`pred == categ`, i.e. `GroundedTerm.__eq__`. -/
def Individual.test_ctg_g (ind : Individual) (pred : GroundedTerm) (now : Nat) :
    Option Bool :=
  match ind.categ.find? (fun c => decide (c.parent = pred.parent)) with
  | none => none
  | some categ => some (groundedEq pred categ now)

/-- Source `Individual.test_ctg(pred)` with a free query atom (ask mode), comparing
with `FreeTerm.__eq__`. -/
def Individual.test_ctg_f (ind : Individual) (pred : FreeTerm) (now : Nat) :
    Option Bool :=
  match ind.categ.find? (fun c => decide (c.parent = pred.parent)) with
  | none => none
  | some categ => some (freeEq pred categ now)

/-- Source `Representation.test_pred(p, kls='pred')` for a grounded membership atom:
both the `subject[0] == '$'` branch and its `else` branch look the subject up
in `self.individuals` (the classes map is never consulted), and the blanket
`except:` turns a missing key into `None`. -/
def test_pred_g (kb : Representation) (p : GroundedTerm) (now : Nat) :
    Option Bool :=
  if firstCharIsDollar p.term = true then
    match dictGet kb.individuals p.term with
    | some ind => ind.test_ctg_g p now
    | none => none
  else
    match dictGet kb.individuals p.term with
    | some ind => ind.test_ctg_g p now
    | none => none

/-- Source `Representation.test_pred(p, kls='pred')` for a free membership atom. -/
def test_pred_f (kb : Representation) (p : FreeTerm) (now : Nat) :
    Option Bool :=
  if firstCharIsDollar p.term = true then
    match dictGet kb.individuals p.term with
    | some ind => ind.test_ctg_f p now
    | none => none
  else
    match dictGet kb.individuals p.term with
    | some ind => ind.test_ctg_f p now
    | none => none

/-! ### `ask(..., single=True)` (`Representation.ask`, kblogic.py 122-133) -/

/-- The nested result map built by `Inference`:
subject → (queried name → tri-value). -/
abbrev ResultsMap := List (String × List (String × Option Bool))

/-- The flattened answer values of a results map, in iteration order. -/
def answersOf (res : ResultsMap) : List (Option Bool) :=
  ((res.map Prod.snd).flatten).map Prod.snd

/-- The inner loop of `ask` with `single=True`: scanning the answers in
order, `False` returns `False`, `None` returns `None`, and when the scan
finishes, `True`. -/
def firstNonTrue : List (Option Bool) → Option Bool
  | [] => some true
  | v :: rest =>
    if v = some false then some false
    else if v = none then none
    else firstNonTrue rest

/-- Source `ask(sent, single=True)` as a function of the inference results. -/
def ask_single (res : ResultsMap) : Option Bool :=
  firstNonTrue (answersOf res)

/-! ### The direct-lookup phase of `Inference.get_query` (`assert_memb`) -/

/-- Source `Inference.get_query`'s `assert_memb(p)` for a single membership query:
a truthy `test_pred` result is recorded in `results`; otherwise (i.e. on
`False` as well as `None`) the atom is queued in `terms` and its parent in
`ctgs` for the unification stage.  Returns `(results, terms, ctgs)`. -/
def get_query_memb (kb : Representation) (p : FreeTerm) (now : Nat) :
    ResultsMap × List (String × List FreeTerm) × List String :=
  match test_pred_f kb p now with
  | some true => ([(p.term, [(p.parent, some true)])], [], [])
  | _ => ([], [(p.term, [p])], [p.parent])

/-! ### The `=>` particle (`LogicImplication.resolve` / `solve_proof`,
parser.py 315-337) -/

/-- Python's `and` on tri-valued truth: the first falsy operand (`None` or
`False`), otherwise the right operand. -/
def py_and : Option Bool → Option Bool → Option Bool
  | none, _ => none
  | some false, _ => some false
  | some true, b => b

/-- Source `LogicImplication`: `None` when `(lhs and rhs) is None`; else `False`
exactly when `rhs is False and lhs is True`; else `True`.  (`resolve` and
`solve_proof` share this decision.) -/
def impl_resolve (lhs rhs : Option Bool) : Option Bool :=
  if py_and lhs rhs = none then none
  else if rhs = some false ∧ lhs = some true then some false
  else some true

/-- The truth table the spec claims for `=>`: unknown if either side is
unknown; false only when lhs is true and rhs is false; true otherwise.
(Stated from the spec's words, for comparison with `impl_resolve`.) -/
def impl_resolve_spec : Option Bool → Option Bool → Option Bool
  | none, _ => none
  | _, none => none
  | some true, some false => some false
  | _, _ => some true

/-- The table `impl_resolve` actually computes (the amended claim):
a false lhs short-circuits to true even when rhs is unknown. -/
def impl_resolve_amended : Option Bool → Option Bool → Option Bool
  | none, _ => none
  | some false, _ => some true
  | some true, none => none
  | some true, some false => some false
  | some true, some true => some true

/-! ### Rule buckets of the inference engine
(`Inference.get_rules`/`mk_node`, kblogic.py 959-974, and
`Inference.unify`, kblogic.py 843-866) -/

/-- An inference node as far as rule ordering is concerned: `mk_node` keys
the per-consequent `SortedListWithKey` by `x.rule.created`. -/
structure InferNodeM where
  rule : RuleSentence
  deriving DecidableEq, Repr

/-- Source `SortedListWithKey.add`: stable insertion keeping the list ascending by
`rule.created` (an equal key is inserted after the existing ones, as with
`bisect_right`). -/
def bucket_add (bucket : List InferNodeM) (n : InferNodeM) : List InferNodeM :=
  match bucket with
  | [] => [n]
  | m :: rest =>
    if n.rule.created < m.rule.created then n :: m :: rest
    else m :: bucket_add rest n

/-- The order in which `unify` tries the nodes of a bucket: the plain
`for node in self.nodes[p]` loop iterates the sorted list in ascending
(oldest-first) order — the `reversed(self.nodes[p])` that would give
newest-first is commented out in the source. -/
def unify_rule_order (bucket : List InferNodeM) : List InferNodeM :=
  bucket

/-! ### Module-level names (for the `kblogic.py` import of the
incomparability exceptions, kblogic.py 48-57) -/

/-- The module-level names of `simag/core/parser.py`: its imports, classes,
functions and module variables.  (`NotCompFuncError` is *not* among them —
it is a class local to the body of `make_function` — and `NotCompAssertError`
is defined nowhere in the file.) -/
def parser_module_names : List String :=
  ["copy", "datetime", "re", "SIMAGParser", "SIMAGSemantics", "__all__",
   "Semantics", "parser", "ParserState", "parser_eval", "ParseResults",
   "EmptyString", "logic_parser", "LogSentence", "make_logic_sent",
   "MetaForAtoms", "LogPredicate", "make_fact", "LogFunction",
   "make_function", "TimeFunc", "GroundedTerm", "FreeTerm",
   "_check_reserved_words", "_set_date", "_get_type_class"]

/-- The names `kblogic.py` imports `from simag.core.parser` (lines 49-57). -/
def kblogic_parser_imports : List String :=
  ["logic_parser", "make_fact", "LogFunction", "LogPredicate", "FreeTerm",
   "NotCompAssertError", "NotCompFuncError"]

/-! ### The value-range invariant of the store -/

def valOk (v : ℚ) : Bool := decide (0 ≤ v) && decide (v ≤ 1)

def argOk : FuncArg → Bool
  | .tup _ v _ => valOk v
  | .bare _ => true

def funcOk (f : RelationFunc) : Bool := f.args.all argOk

def gtermOk (a : GroundedTerm) : Bool := valOk a.value

def relMapOk (m : List (String × List RelationFunc)) : Bool :=
  m.all (fun p => p.2.all funcOk)

def indOk (i : Individual) : Bool :=
  i.categ.all gtermOk && relMapOk i.relations

def categOk (c : Category) : Bool :=
  (c.parents.getD []).all gtermOk && relMapOk (c.relations.getD [])

/-- Every membership atom and every value-carrying relation argument stored
anywhere in the representation has its fuzzy value inside `[0, 1]`. -/
def store_inv (kb : Representation) : Bool :=
  kb.individuals.all (fun p => indOk p.2) && kb.classes.all (fun p => categOk p.2)

/-! ### Concrete inputs and the stores they produce -/

/-- A results map in which an unresolved atom precedes an atom proven false,
as produced e.g. by asking about two atoms of the same subject where the
first has no applicable rules and the second is disproved by one. -/
def c1_results : ResultsMap :=
  [("$a", [("p", none), ("q", some false)])]

def lucyRaw : RawMemb := ⟨"professor", "$Lucy", '=', 1⟩

def lucyAtom : GroundedTerm := ⟨"professor", "$Lucy", 1, '=', none⟩

/-- The store after `tell("professor[$Lucy,u=1]")` on an empty store. -/
def lucyKb : Representation :=
  ⟨[("$Lucy", ⟨"$Lucy", [lucyAtom], []⟩)],
   [("professor", ⟨"professor", [], none, none, false⟩)]⟩

def cowRaw : RawMemb := ⟨"animal", "cow", '=', 1⟩

def cowAtom : GroundedTerm := ⟨"animal", "cow", 1, '=', none⟩

/-- The store after `tell("animal[cow,u=1]")` on an empty store: the atom
lives on the class `cow`, not on any individual. -/
def cowKb : Representation :=
  ⟨[],
   [("cow", ⟨"cow", [], some [cowAtom], none, false⟩),
    ("animal", ⟨"animal", [], none, none, false⟩)]⟩

def chickenRaw : RawMemb := ⟨"animal", "chicken", '=', 1⟩

def chickenAtom : GroundedTerm := ⟨"animal", "chicken", 1, '=', none⟩

/-- The store after `tell("animal[chicken,u=1]")` on an empty store. -/
def chickenKb : Representation :=
  ⟨[],
   [("chicken", ⟨"chicken", [], some [chickenAtom], none, false⟩),
    ("animal", ⟨"animal", [], none, none, false⟩)]⟩

/-- A membership assertion with an illegal value (`u=2`). -/
def badRaw : RawMemb := ⟨"professor", "$Bad", '=', 2⟩

/-- A relation assertion whose first argument carries an illegal value. -/
def badRf : RawFunc := ⟨"rel1", [⟨"$x", some ('=', 2)⟩]⟩

def waterRaw1 : RawMemb := ⟨"cold", "$Water", '=', 1⟩

def waterRaw2 : RawMemb := ⟨"cold", "$Water", '=', 0⟩

/-- The store after `tell("cold[$Water,u=1]")` on an empty store. -/
def waterKb : Representation :=
  ⟨[("$Water", ⟨"$Water", [⟨"cold", "$Water", 1, '=', none⟩], []⟩)],
   [("cold", ⟨"cold", [], none, none, false⟩)]⟩

def friendRaw1 : RawFunc := ⟨"friend", [⟨"$John", some ('=', 1)⟩, ⟨"$Lucy", none⟩]⟩

def friendRaw2 : RawFunc := ⟨"friend", [⟨"$John", some ('=', 1)⟩, ⟨"$Pete", none⟩]⟩

def friendRaw3 : RawFunc := ⟨"friend", [⟨"$John", some ('=', 0)⟩, ⟨"$Lucy", none⟩]⟩

def friendF1 : RelationFunc :=
  ⟨"friend", [.tup "$John" 1 '=', .bare "$Lucy"], ["$John", "$Lucy"], 2, none⟩

def friendF2 : RelationFunc :=
  ⟨"friend", [.tup "$John" 1 '=', .bare "$Pete"], ["$John", "$Pete"], 2, none⟩

/-- The store after `tell("<friend[$John,u=1;$Lucy]>")` on an empty store. -/
def friendKb1 : Representation :=
  ⟨[("$John", ⟨"$John", [], [("friend", [friendF1])]⟩),
    ("$Lucy", ⟨"$Lucy", [], [("friend", [friendF1])]⟩)],
   [("friend", ⟨"friend", [], none, none, true⟩)]⟩

/-- The store after additionally telling `<friend[$John,u=1;$Pete]>`:
`$Pete` gets a bucket, but under `$John` the new atom has been dropped. -/
def friendKb2 : Representation :=
  ⟨[("$John", ⟨"$John", [], [("friend", [friendF1])]⟩),
    ("$Lucy", ⟨"$Lucy", [], [("friend", [friendF1])]⟩),
    ("$Pete", ⟨"$Pete", [], [("friend", [friendF2])]⟩)],
   [("friend", ⟨"friend", [], none, none, true⟩)]⟩

/-! ## Helper lemmas -/

theorem dictGet_dictSet_self (m : List (String × α)) (k : String) (v : α) :
    dictGet (dictSet m k v) k = some v := by
  induction m with
  | nil => simp [dictGet, dictSet]
  | cons p rest ih =>
    obtain ⟨k', v'⟩ := p
    by_cases h : k' = k
    · simp [dictGet, dictSet, h]
    · simp [dictGet, dictSet, h, ih]

theorem dictGet_dictSet_ne (m : List (String × α)) (k k' : String) (v : α)
    (h : k' ≠ k) : dictGet (dictSet m k' v) k = dictGet m k := by
  induction m with
  | nil => simp [dictGet, dictSet, h]
  | cons p rest ih =>
    obtain ⟨k0, v0⟩ := p
    by_cases h0 : k0 = k'
    · subst h0
      simp [dictGet, dictSet, h]
    · by_cases h1 : k0 = k
      · subst h1
        simp [dictGet, dictSet, h0]
      · simp [dictGet, dictSet, h0, h1, ih]

theorem find?_of_any_false (l : List α) (p : α → Bool) (h : l.any p = false) :
    l.find? p = none := by
  induction l with
  | nil => rfl
  | cons a rest ih =>
    simp only [List.any_cons, Bool.or_eq_false_iff] at h
    simp [List.find?_cons, h.1, ih h.2]

theorem find?_append_right (l₁ l₂ : List α) (p : α → Bool)
    (h : l₁.find? p = none) : (l₁ ++ l₂).find? p = l₂.find? p := by
  induction l₁ with
  | nil => rfl
  | cons a rest ih =>
    by_cases ha : p a
    · simp [List.find?_cons, ha] at h
    · simp only [List.find?_cons, ha] at h ⊢
      simp only [List.cons_append, List.find?_cons, ha]
      exact ih h

theorem firstNonTrue_eq_find (l : List (Option Bool)) :
    firstNonTrue l =
      (match l.find? (fun v => decide (v ≠ some true)) with
       | none => some true
       | some v => v) := by
  induction l with
  | nil => rfl
  | cons v rest ih =>
    match v with
    | some true => simpa [firstNonTrue, List.find?_cons] using ih
    | some false => simp [firstNonTrue, List.find?_cons]
    | none => simp [firstNonTrue, List.find?_cons]

theorem firstNonTrue_eq_true_iff (l : List (Option Bool)) :
    firstNonTrue l = some true ↔ ∀ v ∈ l, v = some true := by
  induction l with
  | nil => simp [firstNonTrue]
  | cons v rest ih =>
    match v with
    | some true => simp [firstNonTrue, ih]
    | some false => simp [firstNonTrue]
    | none => simp [firstNonTrue]

theorem evalTimeTruth_eq_true (d1 d2 : Option (List Nat)) (now : Nat) :
    evalTimeTruth d1 d2 now = true := by
  unfold evalTimeTruth
  cases h2 : currentlyTrue d2 now <;> cases h1 : currentlyTrue d1 now <;>
    simp [h1, h2]

/-! ## Claim theorems -/

/-- C1 (amended): with `single=true`, `ask` returns `true` iff every queried
atom's recorded answer is `true`; otherwise it returns the first non-`true`
answer in iteration order (`false` or unknown, whichever is hit first) —
not necessarily `false` when some atom is proven false. -/
theorem c1_theorem (res : ResultsMap) :
    ask_single res =
      (match (answersOf res).find? (fun v => decide (v ≠ some true)) with
       | none => some true
       | some v => v) ∧
    (ask_single res = some true ↔ ∀ v ∈ answersOf res, v = some true) :=
  ⟨firstNonTrue_eq_find _, firstNonTrue_eq_true_iff _⟩

/-- C1 counterexample: in a results map where an unresolved atom precedes an
atom proven false, `ask(..., single=true)` returns unknown even though a
queried atom is proven false — the claim requires `false` here. -/
theorem c1_counterexample :
    ask_single c1_results = none ∧ some false ∈ answersOf c1_results := by
  decide

/-- C4: the code slip behind the claim.  After `tell("cold[$Water,u=1]")`,
re-telling `cold[$Water,u=0]` does not update the stored atom in place:
`Individual.add_ctg` executes `self.categ[idx].update(fact)`, no atom class
defines `update`, and the call raises `AttributeError`.  The count of stored
atoms for the pair is still one. -/
theorem c4_theorem :
    tell_memb emptyRepresentation waterRaw1 = Except.ok waterKb ∧
    tell_memb waterKb waterRaw2 = Except.error (PyError.attributeError "update") ∧
    (dictGet waterKb.individuals "$Water").map (fun i => i.categ.length) =
      some 1 := by
  decide

/-- C5: the code slips behind the claim.  After `<friend[$John,u=1;$Lucy]>`
is stored, telling `<friend[$John,u=1;$Pete]>` leaves `$John`'s `friend`
bucket unchanged — the loop of `add_rel` has no insertion branch for an
unmatched args-hash, so the new atom is silently dropped for `$John` —
and telling `<friend[$John,u=0;$Lucy]>` (same args-id, new value) raises
`AttributeError` because `rel.update(func)` names a method no atom class
defines. -/
theorem c5_theorem :
    tell_rel emptyRepresentation friendRaw1 = Except.ok friendKb1 ∧
    tell_rel friendKb1 friendRaw2 = Except.ok friendKb2 ∧
    (dictGet friendKb2.individuals "$John").map Individual.relations =
      some [("friend", [friendF1])] ∧
    tell_rel friendKb1 friendRaw3 =
      Except.error (PyError.attributeError "update") := by
  decide

/-- C6: the catch mechanism the claim describes cannot run.  `kblogic.py`
imports `NotCompAssertError` and `NotCompFuncError` from `simag.core.parser`,
but neither is a module-level name of `parser.py` (`NotCompFuncError` exists
only as a class local to `make_function`, `NotCompAssertError` nowhere), so
loading the module — and hence any `ask` — raises `ImportError` instead of
returning a tri-valued result. -/
theorem c6_theorem :
    "NotCompAssertError" ∉ parser_module_names ∧
    "NotCompFuncError" ∉ parser_module_names ∧
    ¬ (∀ n ∈ kblogic_parser_imports, n ∈ parser_module_names) := by
  decide

/-- C7 (amended): the `=>` node resolves to unknown when the left side is
unknown, or when the left side is true and the right side is unknown; to
false only when the left side is true and the right side is false; and to
true in every other case — in particular a false left side yields true even
when the right side is unknown. -/
theorem c7_theorem :
    ∀ a b : Option Bool, impl_resolve a b = impl_resolve_amended a b := by
  decide

/-- C7 counterexample: with a false left side and an unknown right side the
code returns true, while the claim ("unknown if either side is unknown")
requires unknown. -/
theorem c7_counterexample :
    impl_resolve (some false) none = some true ∧
    impl_resolve_spec (some false) none = none := by
  decide

/-- C8 (amended): the time-validity comparison always reports valid (so it
never short-circuits equality), grounded-atom equality compares only the
category and subject names — ignoring `op` and `value` — and free-atom
equality compares the stored value against the queried value under the
queried comparator. -/
theorem c8_theorem (d1 d2 : Option (List Nat)) (a b : GroundedTerm)
    (f : FreeTerm) (g : GroundedTerm) (now : Nat) :
    evalTimeTruth d1 d2 now = true ∧
    groundedEq a b now =
      (decide (b.parent = a.parent) && decide (b.term = a.term)) ∧
    freeEq f g now =
      (if f.op = '=' ∧ g.value = f.value then true
       else if f.op = '>' ∧ g.value > f.value then true
       else if f.op = '<' ∧ g.value < f.value then true
       else false) := by
  refine ⟨evalTimeTruth_eq_true _ _ _, ?_, ?_⟩
  · unfold groundedEq
    rw [evalTimeTruth_eq_true]
    simp
  · unfold freeEq
    rw [evalTimeTruth_eq_true]
    simp

/-- C8 counterexample: two grounded membership atoms for the same
(subject, category) with the different values 1 and 0 under op `=` compare
equal under `GroundedTerm.__eq__`, while the claim says they are unequal. -/
theorem c8_counterexample :
    groundedEq ⟨"professor", "$Lucy", 1, '=', none⟩
      ⟨"professor", "$Lucy", 0, '=', none⟩ 0 = true := by
  decide

/-- C9: the rule bucket for a consequent is kept ascending by sentence
creation time, and the `for node in self.nodes[p]` loop of `unify` therefore
tries the *oldest* rule first: with rules created at times 5 and 3 in the
same bucket, the traversal is `[3, 5]` and the first node evaluated is the
older one — the `reversed(...)` that would give newest-first is commented
out in the source. -/
theorem c9_theorem :
    (unify_rule_order (bucket_add (bucket_add [] ⟨⟨1, 5⟩⟩) ⟨⟨2, 3⟩⟩)).map
        (fun n => n.rule.created) = [3, 5] ∧
    (unify_rule_order (bucket_add (bucket_add [] ⟨⟨1, 5⟩⟩) ⟨⟨2, 3⟩⟩)).head? =
      some ⟨⟨2, 3⟩⟩ := by
  decide

/-! ## Lemmas about `mkGroundedTerm`, `up_memb` and `test_pred` -/

theorem mkGroundedTerm_ok (raw : RawMemb) (a : GroundedTerm)
    (h : mkGroundedTerm raw = Except.ok a) :
    a = ⟨raw.klass, raw.term, raw.uval, raw.op, none⟩ ∧ raw.op = '=' ∧
      ¬(raw.uval > 1 ∨ raw.uval < 0) := by
  unfold mkGroundedTerm mkLogPredicateFields at h
  by_cases h1 : raw.uval > 1 ∨ raw.uval < 0
  · rw [if_pos h1] at h
    exact absurd h (by simp)
  · rw [if_neg h1] at h
    dsimp only at h
    by_cases h2 : raw.op ≠ '='
    · rw [if_pos h2] at h
      exact absurd h (by simp)
    · rw [if_neg h2, if_neg h1] at h
      cases h
      exact ⟨rfl, not_not.mp h2, h1⟩

theorem groundedEq_self (a : GroundedTerm) (now : Nat) :
    groundedEq a a now = true := by
  unfold groundedEq
  rw [evalTimeTruth_eq_true]
  simp

theorem freeEq_freeOfGrounded (a : GroundedTerm) (now : Nat)
    (hop : a.op = '=') : freeEq (freeOfGrounded a) a now = true := by
  unfold freeEq freeOfGrounded
  rw [evalTimeTruth_eq_true]
  simp [hop]

theorem test_pred_g_lookup (kb : Representation) (p : GroundedTerm) (now : Nat) :
    test_pred_g kb p now =
      (match dictGet kb.individuals p.term with
       | some ind => ind.test_ctg_g p now
       | none => none) := by
  unfold test_pred_g
  split <;> rfl

theorem test_pred_f_lookup (kb : Representation) (p : FreeTerm) (now : Nat) :
    test_pred_f kb p now =
      (match dictGet kb.individuals p.term with
       | some ind => ind.test_ctg_f p now
       | none => none) := by
  unfold test_pred_f
  split <;> rfl

theorem up_memb_subject_individual (kb kb1 : Representation) (a : GroundedTerm)
    (hd : containsChar a.term '$' = true)
    (h : up_memb_subject kb a = Except.ok kb1) :
    kb1.classes = kb.classes ∧
    ∃ ind, dictGet kb1.individuals a.term = some ind ∧
      ind.categ.find? (fun c => decide (c.parent = a.parent)) = some a := by
  unfold up_memb_subject at h
  by_cases hni : dictGet kb.individuals a.term = none
  · rw [if_pos ⟨hni, hd⟩] at h
    simp only [Individual.new, Individual.add_ctg, List.any_nil,
      Bool.false_eq_true, if_false, List.nil_append] at h
    cases h
    refine ⟨rfl, ⟨a.term, [a], []⟩, dictGet_dictSet_self _ _ _, ?_⟩
    simp [List.find?_cons]
  · rw [if_neg (fun hc => hni hc.1), if_pos hd] at h
    cases hg : dictGet kb.individuals a.term with
    | none => exact absurd hg hni
    | some ind0 =>
      rw [hg] at h
      dsimp only at h
      cases hadd : ind0.add_ctg a with
      | error e =>
        rw [hadd] at h
        exact absurd h (by simp)
      | ok ind2 =>
        rw [hadd] at h
        cases h
        unfold Individual.add_ctg at hadd
        by_cases hany :
            ind0.categ.any (fun f => decide (f.parent = a.parent)) = true
        · rw [if_pos hany] at hadd
          exact absurd hadd (by simp)
        · rw [if_neg hany] at hadd
          cases hadd
          have hany' := Bool.eq_false_iff.mpr hany
          refine ⟨rfl, ⟨ind0.name, ind0.categ ++ [a], ind0.relations⟩,
            dictGet_dictSet_self _ _ _, ?_⟩
          rw [find?_append_right _ _ _ (find?_of_any_false _ _ hany')]
          simp [List.find?_cons]

theorem up_memb_individual (kb kb' : Representation) (a : GroundedTerm)
    (hd : containsChar a.term '$' = true)
    (hup : up_memb kb a = Except.ok kb') :
    ∃ ind, dictGet kb'.individuals a.term = some ind ∧
      ind.categ.find? (fun c => decide (c.parent = a.parent)) = some a := by
  unfold up_memb at hup
  cases hsub : up_memb_subject kb a with
  | error e =>
    rw [hsub] at hup
    exact absurd hup (by simp)
  | ok kb1 =>
    rw [hsub] at hup
    dsimp only at hup
    obtain ⟨-, ind, h1, h2⟩ := up_memb_subject_individual kb kb1 a hd hsub
    by_cases hc : dictGet kb1.classes a.parent = none
    · rw [if_pos hc] at hup
      cases hup
      exact ⟨ind, h1, h2⟩
    · rw [if_neg hc] at hup
      cases hup
      exact ⟨ind, h1, h2⟩

/-- C2 (amended): for a grounded membership atom whose subject names an
individual (the name contains `'$'`), a successful `tell` makes the direct
lookup `test_pred` return `true` (for the grounded atom as well as for its
ask-mode free-term reading), the direct-lookup phase of `ask` records the
atom as proven with nothing left pending, and the `single=true` fold over
that record returns `true`.  For class subjects the round trip fails (see
the counterexample). -/
theorem c2_theorem (kb kb' : Representation) (raw : RawMemb) (a : GroundedTerm)
    (now : Nat) (hmk : mkGroundedTerm raw = Except.ok a)
    (hdollar : containsChar raw.term '$' = true)
    (htell : tell_memb kb raw = Except.ok kb') :
    test_pred_g kb' a now = some true ∧
    test_pred_f kb' (freeOfGrounded a) now = some true ∧
    get_query_memb kb' (freeOfGrounded a) now =
      ([(a.term, [(a.parent, some true)])], [], []) ∧
    ask_single [(a.term, [(a.parent, some true)])] = some true := by
  obtain ⟨ha, hop, -⟩ := mkGroundedTerm_ok raw a hmk
  have hd : containsChar a.term '$' = true := by rw [ha]; exact hdollar
  have hopa : a.op = '=' := by rw [ha]; exact hop
  unfold tell_memb at htell
  rw [hmk] at htell
  dsimp only at htell
  cases hup : up_memb kb a with
  | error e =>
    rw [hup] at htell
    exact absurd htell (by simp)
  | ok kb2 =>
    rw [hup] at htell
    dsimp only at htell
    cases htell
    simp only [bms_add]
    obtain ⟨ind, h1, h2⟩ := up_memb_individual kb kb2 a hd hup
    have hf : test_pred_f kb2 (freeOfGrounded a) now = some true := by
      rw [test_pred_f_lookup]
      simp only [freeOfGrounded]
      rw [h1]
      dsimp only
      unfold Individual.test_ctg_f
      dsimp only
      rw [h2]
      dsimp only
      have hfe := freeEq_freeOfGrounded a now hopa
      simp only [freeOfGrounded] at hfe
      rw [hfe]
    refine ⟨?_, hf, ?_, rfl⟩
    · rw [test_pred_g_lookup, h1]
      dsimp only
      unfold Individual.test_ctg_g
      rw [h2]
      dsimp only
      rw [groundedEq_self]
    · unfold get_query_memb
      rw [hf]
      simp [freeOfGrounded]

/-- C2 witness: the concrete round trip `tell("professor[$Lucy,u=1]")`
followed by `test_pred` and by the direct-lookup phase of
`ask("professor[$Lucy,u=1]", single=true)`. -/
theorem c2_witness :
    test_pred_g lucyKb lucyAtom 0 = some true ∧
    test_pred_f lucyKb (freeOfGrounded lucyAtom) 0 = some true ∧
    get_query_memb lucyKb (freeOfGrounded lucyAtom) 0 =
      ([("$Lucy", [("professor", some true)])], [], []) ∧
    ask_single [("$Lucy", [("professor", some true)])] = some true :=
  c2_theorem emptyRepresentation lucyKb lucyRaw lucyAtom 0 (by decide)
    (by decide) (by decide)

/-- C2 counterexample: for the class subject `cow`, `tell("animal[cow,u=1]")
succeeds but `test_pred` returns `None` (unknown), not `true` — the claim's
universal round trip fails on atoms with class subjects. -/
theorem c2_counterexample :
    tell_memb emptyRepresentation cowRaw = Except.ok cowKb ∧
    test_pred_g cowKb cowAtom 0 = none := by
  decide

/-! ## Lemmas for the class-subject branch of `up_memb` -/

theorem up_memb_subject_class (kb kb1 : Representation) (a : GroundedTerm)
    (hnd : containsChar a.term '$' = false)
    (h : up_memb_subject kb a = Except.ok kb1) :
    kb1.individuals = kb.individuals ∧
    ∃ c, dictGet kb1.classes a.term = some c ∧
      ∃ ps, c.parents = some ps ∧ a ∈ ps := by
  unfold up_memb_subject at h
  have hc1 : ¬(dictGet kb.individuals a.term = none ∧
      containsChar a.term '$' = true) := by simp [hnd]
  have hc2 : ¬(containsChar a.term '$' = true) := by simp [hnd]
  rw [if_neg hc1, if_neg hc2] at h
  cases hg : dictGet kb.classes a.term with
  | none =>
    rw [hg] at h
    dsimp only at h
    simp only [Category.new, Category.add_ctg] at h
    cases h
    exact ⟨rfl, _, dictGet_dictSet_self _ _ _, [a], rfl, by simp⟩
  | some cls =>
    rw [hg] at h
    dsimp only at h
    cases hadd : cls.add_ctg a with
    | error e =>
      rw [hadd] at h
      exact absurd h (by simp)
    | ok cls2 =>
      rw [hadd] at h
      cases h
      unfold Category.add_ctg at hadd
      cases hp : cls.parents with
      | none =>
        rw [hp] at hadd
        cases hadd
        exact ⟨rfl, _, dictGet_dictSet_self _ _ _, [a], rfl, by simp⟩
      | some ps =>
        rw [hp] at hadd
        dsimp only at hadd
        by_cases hany : ps.any (fun f => decide (f.parent = a.parent)) = true
        · rw [if_pos hany] at hadd
          exact absurd hadd (by simp)
        · rw [if_neg hany] at hadd
          cases hadd
          exact ⟨rfl, _, dictGet_dictSet_self _ _ _, ps ++ [a], rfl, by simp⟩

theorem up_memb_class (kb kb' : Representation) (a : GroundedTerm)
    (hnd : containsChar a.term '$' = false)
    (hup : up_memb kb a = Except.ok kb') :
    kb'.individuals = kb.individuals ∧
    ∃ c, dictGet kb'.classes a.term = some c ∧
      ∃ ps, c.parents = some ps ∧ a ∈ ps := by
  unfold up_memb at hup
  cases hsub : up_memb_subject kb a with
  | error e =>
    rw [hsub] at hup
    exact absurd hup (by simp)
  | ok kb1 =>
    rw [hsub] at hup
    dsimp only at hup
    obtain ⟨hi, c, hc, ps, hps, hmem⟩ := up_memb_subject_class kb kb1 a hnd hsub
    by_cases hcp : dictGet kb1.classes a.parent = none
    · rw [if_pos hcp] at hup
      cases hup
      refine ⟨hi, c, ?_, ps, hps, hmem⟩
      have hne : a.parent ≠ a.term := by
        intro he
        rw [he, hc] at hcp
        exact Option.some_ne_none _ hcp
      rw [dictGet_dictSet_ne _ _ _ _ hne]
      exact hc
    · rw [if_neg hcp] at hup
      cases hup
      exact ⟨hi, c, hc, ps, hps, hmem⟩

/-- C10: a membership atom whose subject name does not contain `'$'` is
stored on the class of that name, yet `test_pred` — which looks subjects up
only in the `individuals` map, in both branches of its `subject[0] == '$'`
test — reports it as `None` (unknown). -/
theorem c10_theorem (kb kb' : Representation) (raw : RawMemb) (a : GroundedTerm)
    (now : Nat) (hmk : mkGroundedTerm raw = Except.ok a)
    (hnd : containsChar raw.term '$' = false)
    (hni : dictGet kb.individuals raw.term = none)
    (htell : tell_memb kb raw = Except.ok kb') :
    test_pred_g kb' a now = none ∧
    ∃ c, dictGet kb'.classes a.term = some c ∧
      ∃ ps, c.parents = some ps ∧ a ∈ ps := by
  obtain ⟨ha, -, -⟩ := mkGroundedTerm_ok raw a hmk
  have hd : containsChar a.term '$' = false := by rw [ha]; exact hnd
  have hnia : dictGet kb.individuals a.term = none := by rw [ha]; exact hni
  unfold tell_memb at htell
  rw [hmk] at htell
  dsimp only at htell
  cases hup : up_memb kb a with
  | error e =>
    rw [hup] at htell
    exact absurd htell (by simp)
  | ok kb2 =>
    rw [hup] at htell
    dsimp only at htell
    cases htell
    simp only [bms_add]
    obtain ⟨hi, c, hc, ps, hps, hmem⟩ := up_memb_class kb kb2 a hd hup
    refine ⟨?_, c, hc, ps, hps, hmem⟩
    rw [test_pred_g_lookup, hi, hnia]

/-- C10 witness: `tell("animal[chicken,u=1]")` stores the atom on the class
`chicken`, and `test_pred` on the same atom returns `None`. -/
theorem c10_witness :
    test_pred_g chickenKb chickenAtom 0 = none ∧
    ∃ c, dictGet chickenKb.classes chickenAtom.term = some c ∧
      ∃ ps, c.parents = some ps ∧ chickenAtom ∈ ps :=
  c10_theorem emptyRepresentation chickenKb chickenRaw chickenAtom 0
    (by decide) (by decide) (by decide) (by decide)

/-! ## Lemmas for the value-range invariant (C3) -/

theorem all_snd_dictGet (m : List (String × α)) (Q : α → Bool) (k : String)
    (v : α) (hm : m.all (fun p => Q p.2) = true) (hg : dictGet m k = some v) :
    Q v = true := by
  induction m with
  | nil => simp [dictGet] at hg
  | cons p rest ih =>
    obtain ⟨k0, v0⟩ := p
    simp only [List.all_cons, Bool.and_eq_true] at hm
    unfold dictGet at hg
    by_cases h0 : k0 = k
    · rw [if_pos h0] at hg
      cases hg
      exact hm.1
    · rw [if_neg h0] at hg
      exact ih hm.2 hg

theorem all_snd_dictSet (m : List (String × α)) (Q : α → Bool) (k : String)
    (v : α) (hm : m.all (fun p => Q p.2) = true) (hv : Q v = true) :
    (dictSet m k v).all (fun p => Q p.2) = true := by
  induction m with
  | nil => simp [dictSet, hv]
  | cons p rest ih =>
    obtain ⟨k0, v0⟩ := p
    simp only [List.all_cons, Bool.and_eq_true] at hm
    unfold dictSet
    by_cases h0 : k0 = k
    · rw [if_pos h0]
      simp [hv, hm.2]
    · rw [if_neg h0]
      simp [hm.1, ih hm.2]

theorem add_ctg_indOk (ind ind2 : Individual) (a : GroundedTerm)
    (h : ind.add_ctg a = Except.ok ind2) (hok : indOk ind = true)
    (ha : gtermOk a = true) : indOk ind2 = true := by
  unfold Individual.add_ctg at h
  by_cases hany : ind.categ.any (fun f => decide (f.parent = a.parent)) = true
  · rw [if_pos hany] at h
    exact absurd h (by simp)
  · rw [if_neg hany] at h
    cases h
    unfold indOk at hok ⊢
    simp only [Bool.and_eq_true] at hok ⊢
    exact ⟨by simp [List.all_append, hok.1, ha], hok.2⟩

theorem add_ctg_categOk (c c2 : Category) (a : GroundedTerm)
    (h : c.add_ctg a = Except.ok c2) (hok : categOk c = true)
    (ha : gtermOk a = true) : categOk c2 = true := by
  unfold Category.add_ctg at h
  cases hp : c.parents with
  | none =>
    rw [hp] at h
    cases h
    unfold categOk at hok ⊢
    simp only [Bool.and_eq_true] at hok ⊢
    exact ⟨by simp [ha], hok.2⟩
  | some ps =>
    rw [hp] at h
    dsimp only at h
    by_cases hany : ps.any (fun f => decide (f.parent = a.parent)) = true
    · rw [if_pos hany] at h
      exact absurd h (by simp)
    · rw [if_neg hany] at h
      cases h
      unfold categOk at hok ⊢
      rw [hp] at hok
      simp only [Option.getD_some, Bool.and_eq_true] at hok ⊢
      exact ⟨by simp [List.all_append, hok.1, ha], hok.2⟩

theorem categOk_new (name : String) (isRel : Bool) :
    categOk (Category.new name isRel) = true := rfl

theorem up_memb_subject_inv (kb kb1 : Representation) (a : GroundedTerm)
    (hinv : store_inv kb = true) (ha : gtermOk a = true)
    (h : up_memb_subject kb a = Except.ok kb1) : store_inv kb1 = true := by
  unfold store_inv at hinv
  simp only [Bool.and_eq_true] at hinv
  obtain ⟨hindInv, hclsInv⟩ := hinv
  unfold up_memb_subject at h
  by_cases hni : dictGet kb.individuals a.term = none ∧
      containsChar a.term '$' = true
  · rw [if_pos hni] at h
    cases hadd : (Individual.new a.term).add_ctg a with
    | error e =>
      rw [hadd] at h
      exact absurd h (by simp)
    | ok ind =>
      rw [hadd] at h
      cases h
      have hi : indOk ind = true :=
        add_ctg_indOk _ _ _ hadd (by rfl) ha
      unfold store_inv
      simp only [Bool.and_eq_true]
      exact ⟨all_snd_dictSet _ _ _ _ hindInv hi, hclsInv⟩
  · rw [if_neg hni] at h
    by_cases hdl : containsChar a.term '$' = true
    · rw [if_pos hdl] at h
      cases hg : dictGet kb.individuals a.term with
      | none =>
        rw [hg] at h
        exact absurd h (by simp)
      | some ind0 =>
        rw [hg] at h
        dsimp only at h
        cases hadd : ind0.add_ctg a with
        | error e =>
          rw [hadd] at h
          exact absurd h (by simp)
        | ok ind2 =>
          rw [hadd] at h
          cases h
          have h0 : indOk ind0 = true := all_snd_dictGet _ _ _ _ hindInv hg
          have hi : indOk ind2 = true := add_ctg_indOk _ _ _ hadd h0 ha
          unfold store_inv
          simp only [Bool.and_eq_true]
          exact ⟨all_snd_dictSet _ _ _ _ hindInv hi, hclsInv⟩
    · rw [if_neg hdl] at h
      cases hg : dictGet kb.classes a.term with
      | none =>
        rw [hg] at h
        dsimp only at h
        cases hadd : (Category.new a.term false).add_ctg a with
        | error e =>
          rw [hadd] at h
          exact absurd h (by simp)
        | ok cls2 =>
          rw [hadd] at h
          cases h
          have hcl : categOk cls2 = true :=
            add_ctg_categOk _ _ _ hadd (categOk_new _ _) ha
          unfold store_inv
          simp only [Bool.and_eq_true]
          exact ⟨hindInv, all_snd_dictSet _ _ _ _ hclsInv hcl⟩
      | some cls =>
        rw [hg] at h
        dsimp only at h
        cases hadd : cls.add_ctg a with
        | error e =>
          rw [hadd] at h
          exact absurd h (by simp)
        | ok cls2 =>
          rw [hadd] at h
          cases h
          have h0 : categOk cls = true := all_snd_dictGet _ _ _ _ hclsInv hg
          have hcl : categOk cls2 = true := add_ctg_categOk _ _ _ hadd h0 ha
          unfold store_inv
          simp only [Bool.and_eq_true]
          exact ⟨hindInv, all_snd_dictSet _ _ _ _ hclsInv hcl⟩

theorem up_memb_inv (kb kb' : Representation) (a : GroundedTerm)
    (hinv : store_inv kb = true) (ha : gtermOk a = true)
    (hup : up_memb kb a = Except.ok kb') : store_inv kb' = true := by
  unfold up_memb at hup
  cases hsub : up_memb_subject kb a with
  | error e =>
    rw [hsub] at hup
    exact absurd hup (by simp)
  | ok kb1 =>
    rw [hsub] at hup
    dsimp only at hup
    have h1 := up_memb_subject_inv kb kb1 a hinv ha hsub
    unfold store_inv at h1
    simp only [Bool.and_eq_true] at h1
    by_cases hc : dictGet kb1.classes a.parent = none
    · rw [if_pos hc] at hup
      cases hup
      unfold store_inv
      simp only [Bool.and_eq_true]
      exact ⟨h1.1, all_snd_dictSet _ _ _ _ h1.2 (categOk_new _ _)⟩
    · rw [if_neg hc] at hup
      cases hup
      unfold store_inv
      simp only [Bool.and_eq_true]
      exact h1

theorem mkGroundedTerm_ok_val (raw : RawMemb) (a : GroundedTerm)
    (h : mkGroundedTerm raw = Except.ok a) : gtermOk a = true := by
  obtain ⟨ha, -, hv⟩ := mkGroundedTerm_ok raw a h
  push_neg at hv
  rw [ha]
  simp [gtermOk, valOk, hv.1, hv.2]

theorem mkFuncArg_ok_argOk (a : RawFuncArg) (fa : FuncArg)
    (h : mkFuncArg a = Except.ok fa) : argOk fa = true := by
  unfold mkFuncArg at h
  cases hu : a.uval with
  | none =>
    rw [hu] at h
    cases h
    rfl
  | some p =>
    obtain ⟨op, v⟩ := p
    rw [hu] at h
    dsimp only at h
    by_cases hbad : v > 1 ∨ v < 0
    · rw [if_pos hbad] at h
      exact absurd h (by simp)
    · rw [if_neg hbad] at h
      cases h
      push_neg at hbad
      simp [argOk, valOk, hbad.1, hbad.2]

theorem mkFuncArgs_ok_all (args : List RawFuncArg) (fas : List FuncArg)
    (h : mkFuncArgs args = Except.ok fas) : fas.all argOk = true := by
  induction args generalizing fas with
  | nil =>
    unfold mkFuncArgs at h
    cases h
    rfl
  | cons a rest ih =>
    unfold mkFuncArgs at h
    cases hfa : mkFuncArg a with
    | error e =>
      rw [hfa] at h
      exact absurd h (by simp)
    | ok fa =>
      rw [hfa] at h
      dsimp only at h
      cases hrest : mkFuncArgs rest with
      | error e =>
        rw [hrest] at h
        exact absurd h (by simp)
      | ok fas2 =>
        rw [hrest] at h
        cases h
        simp [List.all_cons, mkFuncArg_ok_argOk a fa hfa, ih fas2 hrest]

theorem mkRelationFunc_ok_funcOk (raw : RawFunc) (f : RelationFunc)
    (h : mkRelationFunc raw = Except.ok f) : funcOk f = true := by
  unfold mkRelationFunc at h
  cases hargs : mkFuncArgs raw.args with
  | error e =>
    rw [hargs] at h
    exact absurd h (by simp)
  | ok args =>
    rw [hargs] at h
    cases h
    exact mkFuncArgs_ok_all _ _ hargs

theorem mkFuncArgs_error_of_bad (args : List RawFuncArg)
    (h : ∃ a ∈ args, ∃ op v, a.uval = some (op, v) ∧ (v > 1 ∨ v < 0)) :
    ∃ e, mkFuncArgs args = Except.error e := by
  induction args with
  | nil => simp at h
  | cons a rest ih =>
    obtain ⟨b, hb, op, v, huv, hbad⟩ := h
    unfold mkFuncArgs
    cases hfa : mkFuncArg a with
    | error e => exact ⟨e, rfl⟩
    | ok fa =>
      rcases List.mem_cons.mp hb with hba | hbr
      · subst hba
        unfold mkFuncArg at hfa
        rw [huv] at hfa
        dsimp only at hfa
        rw [if_pos hbad] at hfa
        exact absurd hfa (by simp)
      · obtain ⟨e, he⟩ := ih ⟨b, hbr, op, v, huv, hbad⟩
        rw [he]
        exact ⟨e, rfl⟩

theorem add_rel_indOk (ind ind2 : Individual) (f : RelationFunc)
    (h : ind.add_rel f = Except.ok ind2) (hok : indOk ind = true)
    (hf : funcOk f = true) : indOk ind2 = true := by
  unfold Individual.add_rel at h
  cases hg : dictGet ind.relations f.func with
  | none =>
    rw [hg] at h
    cases h
    unfold indOk relMapOk at hok ⊢
    simp only [Bool.and_eq_true] at hok ⊢
    have hQ : [f].all funcOk = true := by simp [hf]
    exact ⟨hok.1,
      all_snd_dictSet ind.relations (fun fs => fs.all funcOk) f.func [f]
        hok.2 hQ⟩
  | some rels =>
    rw [hg] at h
    dsimp only at h
    by_cases hany : rels.any (fun rel => chkArgsEq rel f) = true
    · rw [if_pos hany] at h
      exact absurd h (by simp)
    · rw [if_neg hany] at h
      cases h
      exact hok

theorem add_rel_categOk (c c2 : Category) (f : RelationFunc)
    (h : c.add_rel f = Except.ok c2) (hok : categOk c = true)
    (hf : funcOk f = true) : categOk c2 = true := by
  unfold Category.add_rel at h
  by_cases hrel : c.isRelation = true
  · rw [if_pos hrel] at h
    exact absurd h (by simp)
  · rw [if_neg hrel] at h
    cases hm : c.relations with
    | none =>
      rw [hm] at h
      cases h
      unfold categOk relMapOk at hok ⊢
      simp only [Bool.and_eq_true] at hok ⊢
      exact ⟨hok.1, by simp [hf]⟩
    | some m =>
      rw [hm] at h
      dsimp only at h
      cases hg : dictGet m f.func with
      | none =>
        rw [hg] at h
        cases h
        unfold categOk relMapOk at hok ⊢
        rw [hm] at hok
        simp only [Option.getD_some, Bool.and_eq_true] at hok ⊢
        have hQ : [f].all funcOk = true := by simp [hf]
        exact ⟨hok.1,
          all_snd_dictSet m (fun fs => fs.all funcOk) f.func [f] hok.2 hQ⟩
      | some rels =>
        rw [hg] at h
        dsimp only at h
        by_cases hany : rels.any (fun rel => chkArgsEq rel f) = true
        · rw [if_pos hany] at h
          exact absurd h (by simp)
        · rw [if_neg hany] at h
          cases h
          exact hok

theorem up_rel_subject_inv (f : RelationFunc) (kb kb1 : Representation)
    (subject : String) (hinv : store_inv kb = true) (hf : funcOk f = true)
    (h : up_rel_subject f kb subject = Except.ok kb1) :
    store_inv kb1 = true := by
  unfold store_inv at hinv
  simp only [Bool.and_eq_true] at hinv
  obtain ⟨hI, hC⟩ := hinv
  unfold up_rel_subject at h
  by_cases hd : containsChar subject '$' = true
  · rw [if_pos hd] at h
    cases hg : dictGet kb.individuals subject with
    | none =>
      rw [hg] at h
      dsimp only at h
      cases hadd : (Individual.new subject).add_rel f with
      | error e =>
        rw [hadd] at h
        exact absurd h (by simp)
      | ok ind =>
        rw [hadd] at h
        cases h
        have hi : indOk ind = true := add_rel_indOk _ _ _ hadd (by rfl) hf
        unfold store_inv
        simp only [Bool.and_eq_true]
        exact ⟨all_snd_dictSet _ _ _ _ hI hi, hC⟩
    | some ind0 =>
      rw [hg] at h
      dsimp only at h
      cases hadd : ind0.add_rel f with
      | error e =>
        rw [hadd] at h
        exact absurd h (by simp)
      | ok ind2 =>
        rw [hadd] at h
        cases h
        have h0 : indOk ind0 = true := all_snd_dictGet _ _ _ _ hI hg
        have hi : indOk ind2 = true := add_rel_indOk _ _ _ hadd h0 hf
        unfold store_inv
        simp only [Bool.and_eq_true]
        exact ⟨all_snd_dictSet _ _ _ _ hI hi, hC⟩
  · rw [if_neg hd] at h
    cases hg : dictGet kb.classes subject with
    | none =>
      rw [hg] at h
      dsimp only at h
      cases hadd : (Category.new subject false).add_rel f with
      | error e =>
        rw [hadd] at h
        exact absurd h (by simp)
      | ok c2 =>
        rw [hadd] at h
        cases h
        have hcl : categOk c2 = true :=
          add_rel_categOk _ _ _ hadd (categOk_new _ _) hf
        unfold store_inv
        simp only [Bool.and_eq_true]
        exact ⟨hI, all_snd_dictSet _ _ _ _ hC hcl⟩
    | some c =>
      rw [hg] at h
      dsimp only at h
      cases hadd : c.add_rel f with
      | error e =>
        rw [hadd] at h
        exact absurd h (by simp)
      | ok c2 =>
        rw [hadd] at h
        cases h
        have h0 : categOk c = true := all_snd_dictGet _ _ _ _ hC hg
        have hcl : categOk c2 = true := add_rel_categOk _ _ _ hadd h0 hf
        unfold store_inv
        simp only [Bool.and_eq_true]
        exact ⟨hI, all_snd_dictSet _ _ _ _ hC hcl⟩

theorem up_rel_step_inv (f : RelationFunc) (kb kb2 : Representation)
    (subject : String) (hinv : store_inv kb = true) (hf : funcOk f = true)
    (h : up_rel_step f kb subject = Except.ok kb2) : store_inv kb2 = true := by
  unfold up_rel_step at h
  cases hsub : up_rel_subject f kb subject with
  | error e =>
    rw [hsub] at h
    exact absurd h (by simp)
  | ok kb1 =>
    rw [hsub] at h
    dsimp only at h
    have h1 := up_rel_subject_inv f kb kb1 subject hinv hf hsub
    unfold store_inv at h1
    simp only [Bool.and_eq_true] at h1
    by_cases hc : dictGet kb1.classes f.func = none
    · rw [if_pos hc] at h
      cases h
      unfold store_inv
      simp only [Bool.and_eq_true]
      exact ⟨h1.1, all_snd_dictSet _ _ _ _ h1.2 (categOk_new _ _)⟩
    · rw [if_neg hc] at h
      cases h
      unfold store_inv
      simp only [Bool.and_eq_true]
      exact h1

theorem up_rel_go_inv (f : RelationFunc) (subjects : List String)
    (kb kb2 : Representation) (hinv : store_inv kb = true)
    (hf : funcOk f = true) (h : up_rel_go f kb subjects = Except.ok kb2) :
    store_inv kb2 = true := by
  induction subjects generalizing kb with
  | nil =>
    unfold up_rel_go at h
    cases h
    exact hinv
  | cons s rest ih =>
    unfold up_rel_go at h
    cases hstep : up_rel_step f kb s with
    | error e =>
      rw [hstep] at h
      exact absurd h (by simp)
    | ok kb1 =>
      rw [hstep] at h
      exact ih kb1 (up_rel_step_inv f kb kb1 s hinv hf hstep) h

/-- C3: every membership atom and every value-carrying relation argument
stored in the representation has its fuzzy value inside `[0, 1]`: `tell`
raises `AssertionError` during the parse stage — before any store update —
when a value lies outside `[0, 1]`, and any `tell` that succeeds preserves
the store-wide value-range invariant. -/
theorem c3_theorem (kb : Representation) (rawm : RawMemb) (rawf : RawFunc)
    (hinv : store_inv kb = true) :
    ((rawm.uval > 1 ∨ rawm.uval < 0) →
        ∃ e, tell_memb kb rawm = Except.error e) ∧
    (∀ kb2, tell_memb kb rawm = Except.ok kb2 → store_inv kb2 = true) ∧
    ((∃ a ∈ rawf.args, ∃ op v, a.uval = some (op, v) ∧ (v > 1 ∨ v < 0)) →
        ∃ e, tell_rel kb rawf = Except.error e) ∧
    (∀ kb2, tell_rel kb rawf = Except.ok kb2 → store_inv kb2 = true) := by
  refine ⟨?_, ?_, ?_, ?_⟩
  · intro hbad
    unfold tell_memb mkGroundedTerm mkLogPredicateFields
    rw [if_pos hbad]
    exact ⟨_, rfl⟩
  · intro kb2 ht
    unfold tell_memb at ht
    cases hmk : mkGroundedTerm rawm with
    | error e =>
      rw [hmk] at ht
      exact absurd ht (by simp)
    | ok a =>
      rw [hmk] at ht
      dsimp only at ht
      cases hup : up_memb kb a with
      | error e =>
        rw [hup] at ht
        exact absurd ht (by simp)
      | ok kb3 =>
        rw [hup] at ht
        cases ht
        exact up_memb_inv kb kb3 a hinv (mkGroundedTerm_ok_val rawm a hmk) hup
  · intro hbad
    obtain ⟨e, he⟩ := mkFuncArgs_error_of_bad rawf.args hbad
    unfold tell_rel mkRelationFunc
    rw [he]
    exact ⟨e, rfl⟩
  · intro kb2 ht
    unfold tell_rel at ht
    cases hmk : mkRelationFunc rawf with
    | error e =>
      rw [hmk] at ht
      exact absurd ht (by simp)
    | ok f =>
      rw [hmk] at ht
      dsimp only at ht
      cases hup : up_rel kb f with
      | error e =>
        rw [hup] at ht
        exact absurd ht (by simp)
      | ok kb3 =>
        rw [hup] at ht
        cases ht
        exact up_rel_go_inv f (get_args f) kb kb3 hinv
          (mkRelationFunc_ok_funcOk rawf f hmk) hup

/-- C3 witness: the empty store satisfies the invariant, and telling a
membership with `u=2` or a relation whose first argument carries `u=2`
raises instead of storing. -/
theorem c3_witness :
    store_inv emptyRepresentation = true ∧
    (∃ e, tell_memb emptyRepresentation badRaw = Except.error e) ∧
    (∃ e, tell_rel emptyRepresentation badRf = Except.error e) :=
  ⟨by decide,
   (c3_theorem emptyRepresentation badRaw badRf (by decide)).1 (by decide),
   (c3_theorem emptyRepresentation badRaw badRf (by decide)).2.2.1
     ⟨⟨"$x", some ('=', 2)⟩, by decide, '=', 2, rfl, by decide⟩⟩

end Simag
